import Mathlib

/-!
Shallow embedding of the PodGo feed-ingestion pipeline (`src/main.go`) and
proofs about its slug generation, feed loading and reconciliation logic.

Strings are modelled as Lean `String`/`List Char`; a Go rune corresponds to
a Lean `Char`.  Go `map[string]bool` sets are modelled as `List String`
(membership in the list = key present with value `true`).  `time.Time`
values are modelled as opaque `Nat` instants, with the ambient `time.Now()`
passed in as an explicit `now` parameter.  MongoDB collections are modelled
as in-memory lists, and the success/failure of each store operation is an
explicit boolean input, since the pipeline only observes success or failure.
-/

namespace PodGo

/-- Models Go `strings.ToLower` applied to one rune (`unicode.ToLower`),
restricted to the characters this pipeline can distinguish: ASCII letters
are mapped into `a`-`z`, and the uppercase forms of the four German
characters handled by the transliteration step (`Ä Ö Ü ẞ`) are folded to
their lowercase forms.  Every other character is left unchanged; Go would
lowercase further Unicode letters, but any such character is deleted
unchanged by the later strip stage, so the difference is not observable in
the pipeline. -/
def goToLower (c : Char) : Char :=
  if 65 ≤ c.toNat ∧ c.toNat ≤ 90 then Char.ofNat (c.toNat + 32)
  else if c = 'Ä' then 'ä'
  else if c = 'Ö' then 'ö'
  else if c = 'Ü' then 'ü'
  else if c = 'ẞ' then 'ß'
  else c

/-- The per-rune action of
`strings.NewReplacer("ä","ae","ö","oe","ü","ue","ß","ss").Replace`:
each of the four patterns is a single rune, so the replacer rewrites the
string one rune at a time. -/
def transliterate (c : Char) : List Char :=
  if c = 'ä' then ['a', 'e']
  else if c = 'ö' then ['o', 'e']
  else if c = 'ü' then ['u', 'e']
  else if c = 'ß' then ['s', 's']
  else [c]

/-- The character class `[a-zA-Z0-9 ]`; the regex stage
`regexp.MustCompile("[^a-zA-Z0-9 ]").ReplaceAllString(t, "")` deletes every
rune outside this class. -/
def isSlugChar (c : Char) : Bool :=
  decide ((97 ≤ c.toNat ∧ c.toNat ≤ 122) ∨ (65 ≤ c.toNat ∧ c.toNat ≤ 90) ∨
    (48 ≤ c.toNat ∧ c.toNat ≤ 57) ∨ c = ' ')

/-- The regex stage `(" +") -> "-"`: each maximal run of one or more spaces
is replaced by a single hyphen.  The boolean argument records whether the
scan is currently inside a run of spaces (so that only the first space of a
run emits the hyphen). -/
def squashSpacesAux : Bool → List Char → List Char
  | _, [] => []
  | inRun, c :: rest =>
    if c = ' ' then
      if inRun then squashSpacesAux true rest
      else '-' :: squashSpacesAux true rest
    else c :: squashSpacesAux false rest

/-- Replacement emitted for one maximal run of `n` hyphens by the regex
stage `("-\x7b2,10\x7d") -> "-"`: Go scans left to right, each match greedily
consumes between 2 and 10 hyphens of the run and is replaced by one hyphen,
and a final leftover of at most one hyphen stays as it is.  A run of
`n ≥ 2` hyphens therefore becomes `⌈n / 10⌉` hyphens, and runs of length 0
or 1 are unchanged. -/
def hyphenGroupLen (n : Nat) : Nat :=
  if n ≤ 1 then n else (n + 9) / 10

/-- Scan for the `-\x7b2,10\x7d` stage: `run` counts the hyphens of the run
currently being read; on reading a non-hyphen (or the end) the pending run
is flushed through `hyphenGroupLen`. -/
def collapseHyphensAux : Nat → List Char → List Char
  | run, [] => List.replicate (hyphenGroupLen run) '-'
  | run, c :: rest =>
    if c = '-' then collapseHyphensAux (run + 1) rest
    else List.replicate (hyphenGroupLen run) '-' ++ c :: collapseHyphensAux 0 rest

/-- Uppercase hexadecimal digit, as used by Go `net/url` percent escaping. -/
def hexDigit (n : Nat) : Char :=
  (['0', '1', '2', '3', '4', '5', '6', '7', '8', '9',
    'A', 'B', 'C', 'D', 'E', 'F']).getD n '0'

/-- `%XX` escape of one byte value. -/
def percentByte (b : Nat) : List Char :=
  ['%', hexDigit (b / 16), hexDigit (b % 16)]

/-- The UTF-8 encoding of one rune, as a list of byte values; Go escapes a
non-ASCII rune byte by byte. -/
def utf8Bytes (c : Char) : List Nat :=
  let n := c.toNat
  if n < 128 then [n]
  else if n < 2048 then [192 + n / 64, 128 + n % 64]
  else if n < 65536 then [224 + n / 4096, 128 + (n / 64) % 64, 128 + n % 64]
  else [240 + n / 262144, 128 + (n / 4096) % 64, 128 + (n / 64) % 64, 128 + n % 64]

/-- Go `net/url.shouldEscape` for mode `encodePathSegment`, on an ASCII
byte: alphanumerics and `- _ . ~` are never escaped; of the RFC 3986
reserved characters, `$ & + : = @` stay unescaped in a path segment while
`/ ; , ?` and everything else is escaped. -/
def pathShouldEscape (c : Char) : Bool :=
  if (97 ≤ c.toNat ∧ c.toNat ≤ 122) ∨ (65 ≤ c.toNat ∧ c.toNat ≤ 90) ∨
      (48 ≤ c.toNat ∧ c.toNat ≤ 57) then false
  else if c = '-' ∨ c = '_' ∨ c = '.' ∨ c = '~' then false
  else if c = '$' ∨ c = '&' ∨ c = '+' ∨ c = ':' ∨ c = '=' ∨ c = '@' then false
  else true

/-- Go `url.PathEscape` on one rune: ASCII runes are kept or `%XX`-escaped
according to `pathShouldEscape`; non-ASCII runes are escaped byte by byte. -/
def pathEscapeChar (c : Char) : List Char :=
  if c.toNat < 128 then
    if pathShouldEscape c then percentByte c.toNat else [c]
  else (utf8Bytes c).flatMap percentByte

/-- Go `url.PathEscape` over a whole string (as a rune list). -/
def pathEscape (l : List Char) : List Char :=
  l.flatMap pathEscapeChar

/-- `TitleUrl` from `src/main.go`: lowercase, transliterate `ä ö ü ß`,
delete every rune outside `[a-zA-Z0-9 ]`, replace each run of spaces by one
hyphen, collapse runs of 2-10 hyphens, and percent-encode the result as a
URL path segment. -/
def TitleUrl (title : String) : String :=
  let t := title.data.map goToLower
  let t := t.flatMap transliterate
  let t := t.filter isSlugChar
  let t := squashSpacesAux false t
  let t := collapseHyphensAux 0 t
  String.mk (pathEscape t)

/-- The collision loop of `GetTitleUrl` from `src/main.go`:
`for otherPodcasts[t] \x7b t += "x" \x7d`.  The Go loop carries no fuel; the
`fuel` argument only makes the recursion structural, and
`getTitleUrlAux_spec` below shows that with `fuel = used.length + 1` the
loop always exits through its guard (the result is not in `used`), so the
fuelled function agrees with the Go loop on every input. -/
def getTitleUrlAux : Nat → List String → String → String
  | 0, _, t => t
  | fuel + 1, used, t =>
    if t ∈ used then getTitleUrlAux fuel used (t ++ "x") else t

/-- `GetTitleUrl` from `src/main.go`: slugify the title with `TitleUrl`,
then append a literal `x` (without re-slugifying) while the candidate is a
member of `otherPodcasts`. -/
def GetTitleUrl (title : String) (otherPodcasts : List String) : String :=
  getTitleUrlAux (otherPodcasts.length + 1) otherPodcasts (TitleUrl title)

/-- `n` copies of the letter `x`, the suffix grown by the collision loop. -/
def xRep (n : Nat) : String :=
  String.mk (List.replicate n 'x')

/-! ## Data model (`Podcast`, `Episode` and the relevant `gofeed` types) -/

structure PodcastOwner where
  name : String
  email : String
deriving DecidableEq

structure EpisodeEnclosure where
  filesize : String
  filetype : String
  url : String
deriving DecidableEq

/-- The `Podcast` document.  The store-assigned `_id` is modelled as a
`String` and timestamps as `Nat` instants. -/
structure Podcast where
  id : String
  title : String
  categories : List String
  link : String
  description : String
  subtitle : String
  owner : PodcastOwner
  author : String
  image : String
  feed : String
  podlistUrl : String
  updated : Nat
deriving DecidableEq

/-- The `Episode` document. -/
structure Episode where
  id : String
  podlistUrl : String
  podcastId : String
  podcastUrl : String
  podcastTitle : String
  podcastImage : String
  guid : String
  title : String
  published : Nat
  duration : String
  summary : String
  subtitle : String
  description : String
  image : String
  content : String
  enclosure : EpisodeEnclosure
deriving DecidableEq

/-- `gofeed.ITunesItemExt`, the fields this pipeline reads. -/
structure ItemITunesExt where
  duration : String
  summary : String
  subtitle : String
  image : String
deriving DecidableEq

/-- `gofeed.ITunesFeedExt`, the fields this pipeline reads; the owner
pointer may be nil. -/
structure FeedITunesExt where
  owner : Option PodcastOwner
  subtitle : String
  author : String
  image : String
deriving DecidableEq

/-- `gofeed.Enclosure`. -/
structure GofeedEnclosure where
  url : String
  length : String
  type : String
deriving DecidableEq

/-- `gofeed.Item`, the fields this pipeline reads; nil pointers become
`Option` and a nil `PublishedParsed` means "use `time.Now()`". -/
structure Item where
  title : String
  description : String
  content : String
  guid : String
  publishedParsed : Option Nat
  itunesExt : Option ItemITunesExt
  enclosures : List GofeedEnclosure
deriving DecidableEq

/-- `gofeed.Feed`, the fields this pipeline reads. -/
structure Feed where
  title : String
  description : String
  link : String
  feedLink : String
  categories : List String
  publishedParsed : Option Nat
  itunesExt : Option FeedITunesExt
  items : List Item
deriving DecidableEq

/-! ## Feed fetcher -/

/-- `LoadFeed` from `src/main.go`.  The network fetch and parse performed by
`gofeed.Parser.ParseURLWithContext` is an external effect, so its outcome is
the explicit input `parsed`.  On a parse error `LoadFeed` wraps it in a
`feed error:` message; on success it substitutes the input `url` for an
empty self-referential `FeedLink` and otherwise returns the feed
unchanged. -/
def LoadFeed (url : String) (parsed : Except String Feed) : Except String Feed :=
  match parsed with
  | .error e => .error ("feed error: " ++ e)
  | .ok feed =>
    .ok (if feed.feedLink.length ≤ 0 then { feed with feedLink := url } else feed)

/-! ## Reconciler -/

/-- `createNewPodcast` from `src/main.go`: the published time falls back to
`time.Now()` (the `now` parameter), and owner/subtitle/author/image fall
back to empty values when the iTunes extension block (or its owner) is
absent.  The inserted document carries no store-assigned id yet. -/
def createNewPodcast (now : Nat) (feed : Feed) (pTitleUrl : String) : Podcast :=
  let t := feed.publishedParsed.getD now
  let o : PodcastOwner := match feed.itunesExt with
    | some ext => ext.owner.getD { name := "", email := "" }
    | none => { name := "", email := "" }
  let subtitle := match feed.itunesExt with
    | some ext => ext.subtitle
    | none => ""
  let author := match feed.itunesExt with
    | some ext => ext.author
    | none => ""
  let image := match feed.itunesExt with
    | some ext => ext.image
    | none => ""
  { id := "", title := feed.title, categories := feed.categories,
    link := feed.link, description := feed.description, subtitle := subtitle,
    owner := o, author := author, image := image, feed := feed.feedLink,
    podlistUrl := pTitleUrl, updated := t }

/-- The document state produced by `updatePodcast` from `src/main.go`: the
`$set` update always writes `categories`, `link`, `description` and
`updated`, and additionally `subtitle`, `author`, `image` when the feed
carries the iTunes extension block.  All other fields of the stored
document are untouched. -/
def updatePodcast (now : Nat) (podcast : Podcast) (feed : Feed) : Podcast :=
  let p := { podcast with
    categories := feed.categories, link := feed.link,
    description := feed.description, updated := now }
  match feed.itunesExt with
  | some ext => { p with subtitle := ext.subtitle, author := ext.author, image := ext.image }
  | none => p

/-- `createEpisode` from `src/main.go`.  Note that the episode slug is
computed by `GetTitleUrl(e.Title, make(map[string]bool))`, i.e. against a
freshly made empty used-slug set. -/
def createEpisode (now : Nat) (e : Item) (podcast : Podcast) : Episode :=
  let et := e.publishedParsed.getD now
  let ee : EpisodeEnclosure := match e.enclosures with
    | [] => { filesize := "", filetype := "", url := "" }
    | enc :: _ => { filetype := enc.type, filesize := enc.length, url := enc.url }
  let duration := match e.itunesExt with
    | some ext => ext.duration
    | none => ""
  let summary := match e.itunesExt with
    | some ext => ext.summary
    | none => ""
  let subtitle := match e.itunesExt with
    | some ext => ext.subtitle
    | none => ""
  let image := match e.itunesExt with
    | some ext => ext.image
    | none => ""
  { id := "", podlistUrl := GetTitleUrl e.title [], podcastId := "",
    podcastUrl := podcast.podlistUrl, podcastTitle := podcast.title,
    podcastImage := podcast.image, guid := e.guid, title := e.title,
    published := et, duration := duration, summary := summary,
    subtitle := subtitle, description := e.description, image := image,
    content := e.content, enclosure := ee }

/-- Success or failure of each store operation a single `processFeed` call
can issue; the pipeline only observes success or failure, so the outcomes
are explicit boolean inputs of the model.  (`findEpisodesOk` covers both
the `Find` call and the cursor decode, which the code reports with
distinct messages but identical control flow.) -/
structure DbFlags where
  findPodcastOk : Bool
  insertPodcastOk : Bool
  findEpisodesOk : Bool
  bulkWriteOk : Bool
deriving DecidableEq

/-- All store operations succeed. -/
def allOk : DbFlags :=
  { findPodcastOk := true, insertPodcastOk := true,
    findEpisodesOk := true, bulkWriteOk := true }

/-- The set of existing episode GUIDs loaded by `processEpisodes`: the
GUIDs of the stored episodes whose `podcastUrl` equals the podcast's
slug. -/
def existingGuidsFor (podcast : Podcast) (episodeStore : List Episode) : List String :=
  (episodeStore.filter (fun ep => decide (ep.podcastUrl = podcast.podlistUrl))).map Episode.guid

/-- The item loop of `processEpisodes`: walk `feed.Items` in order, keep an
item only if it carries the iTunes extension block and its GUID is not in
the loaded `existingEpisodes` set, and build the batch of new episodes. -/
def newEpisodesList (now : Nat) (podcast : Podcast) (existingGuids : List String) :
    List Item → List Episode
  | [] => []
  | e :: rest =>
    if e.itunesExt.isSome then
      if e.guid ∈ existingGuids then newEpisodesList now podcast existingGuids rest
      else createEpisode now e podcast :: newEpisodesList now podcast existingGuids rest
    else newEpisodesList now podcast existingGuids rest

/-- `processEpisodes` from `src/main.go`: load the existing GUID set for
this podcast, build the batch of new episodes, and bulk-insert the batch
when it is non-empty (inserting nothing is a normal, silent outcome that
issues no write).  Returns the inserted batch and the episode store after
the insert. -/
def processEpisodes (flags : DbFlags) (now : Nat) (feed : Feed) (podcast : Podcast)
    (episodeStore : List Episode) : Except String (List Episode × List Episode) :=
  if !flags.findEpisodesOk then .error "error fetching existing episodes"
  else
    let existingEpisodes := existingGuidsFor podcast episodeStore
    let newEpisodes := newEpisodesList now podcast existingEpisodes feed.items
    if 0 < newEpisodes.length then
      if flags.bulkWriteOk then .ok (newEpisodes, episodeStore ++ newEpisodes)
      else .error "error inserting new episodes"
    else .ok (newEpisodes, episodeStore)

/-- The shared reconciliation state one `processFeed` call reads and
mutates: the two in-memory dedup indices and the two store collections. -/
structure ReconcilerState where
  existingPodcastFeeds : List String
  podcastTitles : List String
  podcastStore : List Podcast
  episodeStore : List Episode
deriving DecidableEq

/-- `processFeed` from `src/main.go`.  If the feed link is already in the
`existingPodcastFeeds` index, the stored podcast is loaded by feed link and
updated in place (`updatePodcast` ignores a failed update write, so no flag
guards it); otherwise a new podcast is built and inserted, and only after a
successful insert are the feed link and the new slug added to the dedup
indices.  Episode processing then runs; its error, like the others, is
returned to the caller together with the state as mutated so far.  (The
Go local `pTitleUrl` is inlined here as the pure expression
`GetTitleUrl feed.Title podcastTitles`, and the in-place mongo writes
appear as the fields of the returned state; episode processing reads the
episode store, which the podcast update never touches.) -/
def processFeed (flags : DbFlags) (now : Nat) (feed : Feed) (st : ReconcilerState) :
    Except String Unit × ReconcilerState :=
  if feed.feedLink ∈ st.existingPodcastFeeds then
    match flags.findPodcastOk, st.podcastStore.find? (fun p => decide (p.feed = feed.feedLink)) with
    | true, some podcast =>
      match processEpisodes flags now feed podcast st.episodeStore with
      | .ok r =>
        (.ok (), { st with
          podcastStore := st.podcastStore.map
            (fun p => if p.id = podcast.id then updatePodcast now p feed else p),
          episodeStore := r.2 })
      | .error e =>
        (.error ("error processing episodes: " ++ e), { st with
          podcastStore := st.podcastStore.map
            (fun p => if p.id = podcast.id then updatePodcast now p feed else p) })
    | _, _ => (.error "error fetching existing podcast", st)
  else
    if flags.insertPodcastOk then
      match processEpisodes flags now feed
          (createNewPodcast now feed (GetTitleUrl feed.title st.podcastTitles))
          st.episodeStore with
      | .ok r =>
        (.ok (), { st with
          existingPodcastFeeds := feed.feedLink :: st.existingPodcastFeeds,
          podcastTitles := GetTitleUrl feed.title st.podcastTitles :: st.podcastTitles,
          podcastStore := st.podcastStore ++
            [createNewPodcast now feed (GetTitleUrl feed.title st.podcastTitles)],
          episodeStore := r.2 })
      | .error e =>
        (.error ("error processing episodes: " ++ e), { st with
          existingPodcastFeeds := feed.feedLink :: st.existingPodcastFeeds,
          podcastTitles := GetTitleUrl feed.title st.podcastTitles :: st.podcastTitles,
          podcastStore := st.podcastStore ++
            [createNewPodcast now feed (GetTitleUrl feed.title st.podcastTitles)] })
    else (.error "error inserting podcast", st)

/-! ## String helpers -/

theorem str_ext {s t : String} (h : s.data = t.data) : s = t := by
  cases s
  cases t
  cases h
  rfl

theorem data_append (s t : String) : (s ++ t).data = s.data ++ t.data := by
  cases s
  cases t
  rfl

theorem str_length_eq (s : String) : s.length = s.data.length := by
  cases s
  rfl

theorem xRep_zero_append (t : String) : t ++ xRep 0 = t := by
  apply str_ext
  rw [data_append]
  exact List.append_nil _

theorem append_x_xRep (t : String) (n : Nat) : (t ++ "x") ++ xRep n = t ++ xRep (n + 1) := by
  apply str_ext
  rw [data_append, data_append, data_append]
  show (t.data ++ ['x']) ++ List.replicate n 'x' = t.data ++ List.replicate (n + 1) 'x'
  rw [List.append_assoc, List.replicate_succ]
  rfl

theorem length_append_xRep (t : String) (n : Nat) : (t ++ xRep n).length = t.length + n := by
  rw [str_length_eq, data_append, List.length_append, ← str_length_eq]
  show t.length + (List.replicate n 'x').length = t.length + n
  rw [List.length_replicate]

theorem length_append_x (t : String) : (t ++ "x").length = t.length + 1 := by
  rw [str_length_eq, data_append, List.length_append, ← str_length_eq]
  rfl

theorem xRep_append_inj {t : String} {i j : Nat} (h : t ++ xRep i = t ++ xRep j) : i = j := by
  have hl := congrArg String.length h
  rw [length_append_xRep, length_append_xRep] at hl
  omega

/-! ## Characterization of the collision loop -/

/-- Appending `x` strictly shrinks the number of used slugs at least as
long as the current candidate, as long as the candidate is itself used:
the candidate is counted on the right but not on the left. -/
theorem countP_append_x_lt {t : String} {used : List String} (h : t ∈ used) :
    used.countP (fun s => decide ((t ++ "x").length ≤ s.length)) <
      used.countP (fun s => decide (t.length ≤ s.length)) := by
  induction used with
  | nil => cases h
  | cons a rest ih =>
    rw [List.countP_cons, List.countP_cons]
    have hmono : rest.countP (fun s => decide ((t ++ "x").length ≤ s.length)) ≤
        rest.countP (fun s => decide (t.length ≤ s.length)) := by
      apply List.countP_mono_left
      intro x _ hx
      simp only [decide_eq_true_eq] at hx ⊢
      rw [length_append_x] at hx
      omega
    rcases List.mem_cons.mp h with heq | hmem
    · subst heq
      have h1 : (decide ((t ++ "x").length ≤ t.length)) = false := by
        simp only [decide_eq_false_iff_not]
        rw [length_append_x]
        omega
      have h2 : (decide (t.length ≤ t.length)) = true := by simp
      rw [h1, h2]
      simp only [Bool.false_eq_true, if_false, if_true]
      omega
    · have hstrict := ih hmem
      by_cases hpa : ((t ++ "x").length ≤ a.length)
      · have hqa : (t.length ≤ a.length) := by
          rw [length_append_x] at hpa
          omega
        rw [if_pos (by simpa using hpa), if_pos (by simpa using hqa)]
        omega
      · rw [if_neg (by simpa using hpa)]
        by_cases hqa : (t.length ≤ a.length)
        · rw [if_pos (by simpa using hqa)]
          omega
        · rw [if_neg (by simpa using hqa)]
          omega

/-- The collision loop, characterized: with enough fuel it returns the
first candidate of the chain `t, t ++ "x", t ++ "xx", ...` that is not in
`used` — in particular the fuel is never exhausted. -/
theorem getTitleUrlAux_spec : ∀ (fuel : Nat) (used : List String) (t : String),
    used.countP (fun s => decide (t.length ≤ s.length)) < fuel →
    ∃ n, getTitleUrlAux fuel used t = t ++ xRep n ∧ (t ++ xRep n) ∉ used ∧
      ∀ j, j < n → (t ++ xRep j) ∈ used := by
  intro fuel
  induction fuel with
  | zero =>
    intro used t h
    exact absurd h (Nat.not_lt_zero _)
  | succ fuel ih =>
    intro used t h
    by_cases hmem : t ∈ used
    · have hlt := countP_append_x_lt hmem
      obtain ⟨n, h1, h2, h3⟩ := ih used (t ++ "x") (by omega)
      refine ⟨n + 1, ?_, ?_, ?_⟩
      · simp only [getTitleUrlAux]
        rw [if_pos hmem, h1, append_x_xRep]
      · rw [← append_x_xRep]
        exact h2
      · intro j hj
        cases j with
        | zero =>
          rw [xRep_zero_append]
          exact hmem
        | succ k =>
          rw [← append_x_xRep]
          exact h3 k (by omega)
    · refine ⟨0, ?_, ?_, ?_⟩
      · simp only [getTitleUrlAux]
        rw [if_neg hmem, xRep_zero_append]
      · rw [xRep_zero_append]
        exact hmem
      · intro j hj
        exact absurd hj (Nat.not_lt_zero _)

/-- `GetTitleUrl` returns the first candidate of the chain
`TitleUrl title, TitleUrl title ++ "x", ...` absent from the used set. -/
theorem getTitleUrl_characterization (title : String) (used : List String) :
    ∃ n, GetTitleUrl title used = TitleUrl title ++ xRep n ∧
      (TitleUrl title ++ xRep n) ∉ used ∧
      ∀ j, j < n → (TitleUrl title ++ xRep j) ∈ used :=
  getTitleUrlAux_spec (used.length + 1) used (TitleUrl title)
    (Nat.lt_succ_of_le (List.countP_le_length _))

/-- Repeated calls of `GetTitleUrl` with the same title, the used set grown
by each previous result (the growth pattern of the `podcastTitles` index in
`processFeed` when the same title keeps arriving). -/
def grownChain (title : String) : Nat → List String
  | 0 => []
  | n + 1 => GetTitleUrl title (grownChain title n) :: grownChain title n

theorem grownChain_spec (title : String) : ∀ n : Nat,
    (∀ s, s ∈ grownChain title n ↔ ∃ j, j < n ∧ s = TitleUrl title ++ xRep j) ∧
    GetTitleUrl title (grownChain title n) = TitleUrl title ++ xRep n := by
  intro n
  induction n with
  | zero =>
    constructor
    · intro s
      constructor
      · intro hs
        cases hs
      · rintro ⟨j, hj, -⟩
        exact absurd hj (Nat.not_lt_zero _)
    · obtain ⟨m, h1, h2, h3⟩ := getTitleUrl_characterization title (grownChain title 0)
      have hm : m = 0 := by
        by_contra hne
        exact absurd (h3 0 (Nat.pos_of_ne_zero hne)) (by simp [grownChain])
      rw [h1, hm]
  | succ n ih =>
    obtain ⟨ihmem, ihres⟩ := ih
    have hchain : grownChain title (n + 1) =
        (TitleUrl title ++ xRep n) :: grownChain title n := by
      show GetTitleUrl title (grownChain title n) :: grownChain title n = _
      rw [ihres]
    have hmem : ∀ s, s ∈ grownChain title (n + 1) ↔
        ∃ j, j < n + 1 ∧ s = TitleUrl title ++ xRep j := by
      intro s
      rw [hchain, List.mem_cons]
      constructor
      · rintro (rfl | hs)
        · exact ⟨n, Nat.lt_succ_self n, rfl⟩
        · obtain ⟨j, hj, rfl⟩ := (ihmem s).mp hs
          exact ⟨j, by omega, rfl⟩
      · rintro ⟨j, hj, rfl⟩
        by_cases hjn : j = n
        · subst hjn
          exact Or.inl rfl
        · exact Or.inr ((ihmem _).mpr ⟨j, by omega, rfl⟩)
    refine ⟨hmem, ?_⟩
    obtain ⟨m, h1, h2, h3⟩ := getTitleUrl_characterization title (grownChain title (n + 1))
    have hge : n + 1 ≤ m := by
      by_contra hlt2
      have hin := (hmem _).mpr ⟨m, by omega, rfl⟩
      exact h2 hin
    have hle : m ≤ n + 1 := by
      by_contra hgt
      obtain ⟨j, hj, heq⟩ := (hmem _).mp (h3 (n + 1) (by omega))
      have := xRep_append_inj heq
      omega
    have hm : m = n + 1 := by omega
    rw [h1, hm]

/-! ## Claims C1 and C2 -/

/-- Modelled from the spec: the reference collision algorithm the spec
states for `uniqueSlug` — compute `slugify(title)`, then, while the
candidate is in `usedSlugs`, append a literal `x` **and re-slugify the
candidate**, returning the first candidate absent from the set.  This
declarative loop is not in the source (the source appends without
re-slugifying); it is embedded here only to compare it to `GetTitleUrl`.
The fuel makes the recursion structural; at the inputs where it is
compared below the loop exits through its guard within the given fuel. -/
def uniqueSlugSpecAux : Nat → List String → String → String
  | 0, _, t => t
  | fuel + 1, used, t =>
    if t ∈ used then uniqueSlugSpecAux fuel used (TitleUrl (t ++ "x")) else t

/-- Modelled from the spec: entry point of the reference algorithm. -/
def uniqueSlugSpec (title : String) (used : List String) : String :=
  uniqueSlugSpecAux (used.length + 1) used (TitleUrl title)

/-- C1 counterexample: on title `"My Show"` with `"my-show"` already used,
the code (`GetTitleUrl`) returns `"my-showx"`, while the spec's reference
algorithm re-slugifies the grown candidate, which deletes the hyphen and
returns `"myshowx"`.  (The third conjunct shows the reference loop really
exited through its guard rather than running out of fuel.)  So `GetTitleUrl`
does not equal the spec's stated algorithm. -/
theorem c1_counterexample :
    GetTitleUrl "My Show" ["my-show"] = "my-showx" ∧
    uniqueSlugSpec "My Show" ["my-show"] = "myshowx" ∧
    uniqueSlugSpec "My Show" ["my-show"] ∉ ["my-show"] ∧
    GetTitleUrl "My Show" ["my-show"] ≠ uniqueSlugSpec "My Show" ["my-show"] := by
  exact ⟨by decide, by decide, by decide, by decide⟩

/-- C1 (amended): `GetTitleUrl title usedSlugs` computes `TitleUrl title`
and then, while the candidate is a member of `usedSlugs`, appends a literal
`x` character **without re-slugifying**, returning the first candidate not
in `usedSlugs`: the result is `TitleUrl title` followed by the least number
of `x` characters making it absent from the set. -/
theorem c1_unique_slug_appends_x (title : String) (used : List String) :
    ∃ n, GetTitleUrl title used = TitleUrl title ++ xRep n ∧
      (TitleUrl title ++ xRep n) ∉ used ∧
      ∀ j, j < n → (TitleUrl title ++ xRep j) ∈ used :=
  getTitleUrl_characterization title used

/-- C2: `GetTitleUrl` never returns a member of its used set; repeated
calls with the same title against a used set grown by each previous result
return the strictly growing chain `TitleUrl title ++ "x"^n`; and an empty
or all-punctuation title slugifies to `""` and still takes part in this
resolution (`"x"` after the first collision, `"xx"` after the second)
instead of failing. -/
theorem c2_unique_slug_chain :
    (∀ (title : String) (used : List String), GetTitleUrl title used ∉ used) ∧
    (∀ (title : String) (n : Nat),
      GetTitleUrl title (grownChain title n) = TitleUrl title ++ xRep n) ∧
    TitleUrl "" = "" ∧ TitleUrl "?!." = "" ∧ GetTitleUrl "" [] = "" ∧
    GetTitleUrl "" [""] = "x" ∧ GetTitleUrl "" ["x", ""] = "xx" := by
  refine ⟨?_, ?_, by decide, by decide, by decide, by decide, by decide⟩
  · intro title used
    obtain ⟨n, h1, h2, -⟩ := getTitleUrl_characterization title used
    rw [h1]
    exact h2
  · intro title n
    exact (grownChain_spec title n).2

/-! ## Character-set facts about the slug pipeline (claim C3) -/

theorem toNat_goToLower_not_upper (c : Char) :
    ¬(65 ≤ (goToLower c).toNat ∧ (goToLower c).toNat ≤ 90) := by
  unfold goToLower
  split_ifs with h1 h2 h3 h4 h5
  · have hv : (c.toNat + 32).isValidChar := Or.inl (by omega)
    have heq : (Char.ofNat (c.toNat + 32)).toNat = c.toNat + 32 := by
      unfold Char.ofNat
      rw [dif_pos hv]
      rfl
    rw [heq]
    omega
  · decide
  · decide
  · decide
  · decide
  · exact h1

theorem transliterate_mem {c d : Char} (hd : d ∈ transliterate c) :
    d = c ∨ d ∈ ['a', 'e', 'o', 'u', 's'] := by
  unfold transliterate at hd
  split_ifs at hd <;> simp_all <;> tauto

theorem not_upper_of_mem_aeous {d : Char} (hd : d ∈ ['a', 'e', 'o', 'u', 's']) :
    ¬(65 ≤ d.toNat ∧ d.toNat ≤ 90) := by
  fin_cases hd <;> decide

/-- Characters surviving the strip stage of `TitleUrl` are lowercase
letters, digits or spaces (the strip keeps `A`-`Z` too, but lowercasing and
transliteration leave no uppercase ASCII letter to keep). -/
theorem mem_strip_charset {orig : List Char} {c : Char}
    (hc : c ∈ ((orig.map goToLower).flatMap transliterate).filter isSlugChar) :
    (97 ≤ c.toNat ∧ c.toNat ≤ 122) ∨ (48 ≤ c.toNat ∧ c.toNat ≤ 57) ∨ c = ' ' := by
  rw [List.mem_filter] at hc
  obtain ⟨hmem, hkeep⟩ := hc
  rw [List.mem_flatMap] at hmem
  obtain ⟨b, hb, hcb⟩ := hmem
  rw [List.mem_map] at hb
  obtain ⟨a, -, rfl⟩ := hb
  have hcu : ¬(65 ≤ c.toNat ∧ c.toNat ≤ 90) := by
    rcases transliterate_mem hcb with rfl | hlist
    · exact toNat_goToLower_not_upper a
    · exact not_upper_of_mem_aeous hlist
  unfold isSlugChar at hkeep
  rw [decide_eq_true_eq] at hkeep
  rcases hkeep with h | h | h | h
  · exact Or.inl h
  · exact absurd h hcu
  · exact Or.inr (Or.inl h)
  · exact Or.inr (Or.inr h)

theorem squashSpaces_charset : ∀ (b : Bool) (l : List Char) (c : Char),
    c ∈ squashSpacesAux b l → c = '-' ∨ (c ∈ l ∧ c ≠ ' ') := by
  intro b l
  induction l generalizing b with
  | nil =>
    intro c hc
    cases hc
  | cons a rest ih =>
    intro c hc
    unfold squashSpacesAux at hc
    by_cases ha : a = ' '
    · rw [if_pos ha] at hc
      cases b with
      | true =>
        rw [if_pos rfl] at hc
        rcases ih true c hc with h | ⟨hm, hs⟩
        · exact Or.inl h
        · exact Or.inr ⟨List.mem_cons_of_mem _ hm, hs⟩
      | false =>
        rw [if_neg (by simp)] at hc
        rcases List.mem_cons.mp hc with rfl | hc2
        · exact Or.inl rfl
        · rcases ih true c hc2 with h | ⟨hm, hs⟩
          · exact Or.inl h
          · exact Or.inr ⟨List.mem_cons_of_mem _ hm, hs⟩
    · rw [if_neg ha] at hc
      rcases List.mem_cons.mp hc with rfl | hc2
      · exact Or.inr ⟨List.mem_cons_self _ _, ha⟩
      · rcases ih false c hc2 with h | ⟨hm, hs⟩
        · exact Or.inl h
        · exact Or.inr ⟨List.mem_cons_of_mem _ hm, hs⟩

theorem collapseHyphens_charset : ∀ (l : List Char) (r : Nat) (c : Char),
    c ∈ collapseHyphensAux r l → c = '-' ∨ (c ∈ l ∧ c ≠ '-') := by
  intro l
  induction l with
  | nil =>
    intro r c hc
    unfold collapseHyphensAux at hc
    exact Or.inl (List.eq_of_mem_replicate hc)
  | cons a rest ih =>
    intro r c hc
    unfold collapseHyphensAux at hc
    by_cases ha : a = '-'
    · rw [if_pos ha] at hc
      rcases ih (r + 1) c hc with h | ⟨hm, hh⟩
      · exact Or.inl h
      · exact Or.inr ⟨List.mem_cons_of_mem _ hm, hh⟩
    · rw [if_neg ha] at hc
      rcases List.mem_append.mp hc with hrep | hc2
      · exact Or.inl (List.eq_of_mem_replicate hrep)
      · rcases List.mem_cons.mp hc2 with rfl | hc3
        · exact Or.inr ⟨List.mem_cons_self _ _, ha⟩
        · rcases ih 0 c hc3 with h | ⟨hm, hh⟩
          · exact Or.inl h
          · exact Or.inr ⟨List.mem_cons_of_mem _ hm, hh⟩

theorem pathEscapeChar_id {c : Char}
    (h : (97 ≤ c.toNat ∧ c.toNat ≤ 122) ∨ (48 ≤ c.toNat ∧ c.toNat ≤ 57) ∨ c = '-') :
    pathEscapeChar c = [c] := by
  rcases h with h | h | rfl
  · have h2 : pathShouldEscape c = false := by
      unfold pathShouldEscape
      rw [if_pos (Or.inl h)]
    unfold pathEscapeChar
    rw [if_pos (by omega), h2]
    simp
  · have h2 : pathShouldEscape c = false := by
      unfold pathShouldEscape
      rw [if_pos (Or.inr (Or.inr h))]
    unfold pathEscapeChar
    rw [if_pos (by omega), h2]
    simp
  · decide

theorem pathEscape_id : ∀ {l : List Char},
    (∀ c ∈ l, (97 ≤ c.toNat ∧ c.toNat ≤ 122) ∨ (48 ≤ c.toNat ∧ c.toNat ≤ 57) ∨ c = '-') →
    pathEscape l = l := by
  intro l
  induction l with
  | nil =>
    intro h
    rfl
  | cons a rest ih =>
    intro h
    have hrest : rest.flatMap pathEscapeChar = rest :=
      ih (fun c hc => h c (List.mem_cons_of_mem _ hc))
    show pathEscapeChar a ++ rest.flatMap pathEscapeChar = a :: rest
    rw [pathEscapeChar_id (h a (List.mem_cons_self _ _)), hrest]
    rfl

/-- Every character of a `TitleUrl` output is a lowercase letter, a digit
or a hyphen. -/
theorem titleUrl_charset (y : String) :
    ∀ c ∈ (TitleUrl y).data,
      (97 ≤ c.toNat ∧ c.toNat ≤ 122) ∨ (48 ≤ c.toNat ∧ c.toNat ≤ 57) ∨ c = '-' := by
  have h5 : ∀ d ∈ collapseHyphensAux 0 (squashSpacesAux false
      (((y.data.map goToLower).flatMap transliterate).filter isSlugChar)),
      (97 ≤ d.toNat ∧ d.toNat ≤ 122) ∨ (48 ≤ d.toNat ∧ d.toNat ≤ 57) ∨ d = '-' := by
    intro d hd
    rcases collapseHyphens_charset _ 0 d hd with rfl | ⟨hd4, hdh⟩
    · exact Or.inr (Or.inr rfl)
    · rcases squashSpaces_charset false _ d hd4 with rfl | ⟨hd3, hds⟩
      · exact absurd rfl hdh
      · rcases mem_strip_charset hd3 with h | h | rfl
        · exact Or.inl h
        · exact Or.inr (Or.inl h)
        · exact absurd rfl hds
  intro c hc
  have hdata : (TitleUrl y).data = collapseHyphensAux 0 (squashSpacesAux false
      (((y.data.map goToLower).flatMap transliterate).filter isSlugChar)) :=
    pathEscape_id h5
  rw [hdata] at hc
  exact h5 c hc

/-! ## Fixpoint facts about the slug pipeline (claim C3) -/

theorem map_id_of_fix {f : Char → Char} : ∀ {l : List Char},
    (∀ c ∈ l, f c = c) → l.map f = l := by
  intro l
  induction l with
  | nil =>
    intro h
    rfl
  | cons a rest ih =>
    intro h
    rw [List.map_cons, h a (List.mem_cons_self _ _),
      ih (fun c hc => h c (List.mem_cons_of_mem _ hc))]

theorem flatMap_id_of_fix {f : Char → List Char} : ∀ {l : List Char},
    (∀ c ∈ l, f c = [c]) → l.flatMap f = l := by
  intro l
  induction l with
  | nil =>
    intro h
    rfl
  | cons a rest ih =>
    intro h
    show f a ++ rest.flatMap f = a :: rest
    rw [h a (List.mem_cons_self _ _), ih (fun c hc => h c (List.mem_cons_of_mem _ hc))]
    rfl

theorem goToLower_id {c : Char}
    (h : (97 ≤ c.toNat ∧ c.toNat ≤ 122) ∨ (48 ≤ c.toNat ∧ c.toNat ≤ 57)) :
    goToLower c = c := by
  have hne1 : c ≠ 'Ä' := by
    intro he
    rw [he] at h
    revert h
    decide
  have hne2 : c ≠ 'Ö' := by
    intro he
    rw [he] at h
    revert h
    decide
  have hne3 : c ≠ 'Ü' := by
    intro he
    rw [he] at h
    revert h
    decide
  have hne4 : c ≠ 'ẞ' := by
    intro he
    rw [he] at h
    revert h
    decide
  unfold goToLower
  rw [if_neg (by omega), if_neg hne1, if_neg hne2, if_neg hne3, if_neg hne4]

theorem transliterate_id {c : Char}
    (h : (97 ≤ c.toNat ∧ c.toNat ≤ 122) ∨ (48 ≤ c.toNat ∧ c.toNat ≤ 57)) :
    transliterate c = [c] := by
  have hne1 : c ≠ 'ä' := by
    intro he
    rw [he] at h
    revert h
    decide
  have hne2 : c ≠ 'ö' := by
    intro he
    rw [he] at h
    revert h
    decide
  have hne3 : c ≠ 'ü' := by
    intro he
    rw [he] at h
    revert h
    decide
  have hne4 : c ≠ 'ß' := by
    intro he
    rw [he] at h
    revert h
    decide
  unfold transliterate
  rw [if_neg hne1, if_neg hne2, if_neg hne3, if_neg hne4]

theorem squashSpaces_id : ∀ (b : Bool) (l : List Char),
    (∀ c ∈ l, c ≠ ' ') → squashSpacesAux b l = l := by
  intro b l
  induction l generalizing b with
  | nil =>
    intro h
    rfl
  | cons a rest ih =>
    intro h
    unfold squashSpacesAux
    rw [if_neg (h a (List.mem_cons_self _ _)),
      ih false (fun c hc => h c (List.mem_cons_of_mem _ hc))]

theorem collapseHyphens_id : ∀ (l : List Char),
    (∀ c ∈ l, c ≠ '-') → collapseHyphensAux 0 l = l := by
  intro l
  induction l with
  | nil =>
    intro h
    rfl
  | cons a rest ih =>
    intro h
    unfold collapseHyphensAux
    rw [if_neg (h a (List.mem_cons_self _ _)),
      ih (fun c hc => h c (List.mem_cons_of_mem _ hc))]
    rfl

/-- `TitleUrl` fixes strings made only of lowercase ASCII letters and
digits: every pipeline stage leaves such a string unchanged. -/
theorem titleUrl_fix {s : String}
    (h : ∀ c ∈ s.data, (97 ≤ c.toNat ∧ c.toNat ≤ 122) ∨ (48 ≤ c.toNat ∧ c.toNat ≤ 57)) :
    TitleUrl s = s := by
  have hnospace : ∀ c ∈ s.data, c ≠ ' ' := by
    intro c hc he
    have hr := h c hc
    rw [he] at hr
    revert hr
    decide
  have hnohyphen : ∀ c ∈ s.data, c ≠ '-' := by
    intro c hc he
    have hr := h c hc
    rw [he] at hr
    revert hr
    decide
  apply str_ext
  show pathEscape (collapseHyphensAux 0 (squashSpacesAux false
    (((s.data.map goToLower).flatMap transliterate).filter isSlugChar))) = s.data
  rw [map_id_of_fix (fun c hc => goToLower_id (h c hc))]
  rw [flatMap_id_of_fix (fun c hc => transliterate_id (h c hc))]
  rw [List.filter_eq_self.mpr ?hkeep]
  case hkeep =>
    intro c hc
    unfold isSlugChar
    rw [decide_eq_true_eq]
    rcases h c hc with h1 | h1
    · exact Or.inl h1
    · exact Or.inr (Or.inr (Or.inl h1))
  rw [squashSpaces_id false _ hnospace, collapseHyphens_id _ hnohyphen]
  exact pathEscape_id (fun c hc => by
    rcases h c hc with h1 | h1
    · exact Or.inl h1
    · exact Or.inr (Or.inl h1))

/-! ## Claim C3 -/

/-- C3 counterexample: `TitleUrl` is not idempotent.  `"My Show"`
slugifies to `"my-show"`, but slugifying that output again deletes the
hyphen (the strip stage keeps only `[a-zA-Z0-9 ]`) and yields `"myshow"`. -/
theorem c3_counterexample :
    TitleUrl "My Show" = "my-show" ∧ TitleUrl (TitleUrl "My Show") = "myshow" ∧
    TitleUrl (TitleUrl "My Show") ≠ TitleUrl "My Show" :=
  ⟨by decide, by decide, by decide⟩

/-- C3 (amended): `TitleUrl` is idempotent exactly on outputs that contain
no hyphen — for every `y` whose slug `TitleUrl y` is hyphen-free (e.g. any
title without internal spaces), `TitleUrl (TitleUrl y) = TitleUrl y`; with
a hyphen present, re-slugifying deletes it. -/
theorem c3_idempotent_on_hyphen_free (y : String)
    (h : ∀ c ∈ (TitleUrl y).data, c ≠ '-') :
    TitleUrl (TitleUrl y) = TitleUrl y := by
  apply titleUrl_fix
  intro c hc
  rcases titleUrl_charset y c hc with h1 | h1 | rfl
  · exact Or.inl h1
  · exact Or.inr h1
  · exact absurd rfl (h _ hc)

/-- Witness for `c3_idempotent_on_hyphen_free` at the concrete title
`"Episode7"`. -/
theorem c3_idempotent_witness :
    (∀ c ∈ (TitleUrl "Episode7").data, c ≠ '-') ∧
    TitleUrl (TitleUrl "Episode7") = TitleUrl "Episode7" :=
  ⟨by decide, c3_idempotent_on_hyphen_free "Episode7" (by decide)⟩

/-! ## Claim C4 -/

/-- C4: `TitleUrl` performs, in order: lowercase, transliterate
`ä→ae ö→oe ü→ue ß→ss`, delete every character outside `[a-zA-Z0-9 ]`,
replace each run of spaces by one hyphen, collapse runs of 2-10 hyphens
into one, percent-encode as a URL path segment; `"My Show"` maps to
`"my-show"`.  The extra examples pin the order down: the German example
needs lowercasing before transliteration, `"a   b"` shows space runs
collapse to one hyphen, and `"a ! b"` shows stripping happens before space
collapsing. -/
theorem c4_slug_stages :
    (∀ title : String, TitleUrl title = String.mk (pathEscape (collapseHyphensAux 0
      (squashSpacesAux false
        (((title.data.map goToLower).flatMap transliterate).filter isSlugChar))))) ∧
    TitleUrl "My Show" = "my-show" ∧
    TitleUrl "Äöü ß!" = "aeoeue-ss" ∧
    TitleUrl "a   b" = "a-b" ∧
    TitleUrl "a ! b" = "a-b" :=
  ⟨fun _ => rfl, by decide, by decide, by decide, by decide⟩

/-! ## Concrete fixtures for the reconciliation claims -/

/-- An iTunes item extension block with empty metadata fields. -/
def extW : ItemITunesExt :=
  { duration := "", summary := "", subtitle := "", image := "" }

/-- A feed item carrying the iTunes extension block. -/
def itemW (title guid : String) : Item :=
  { title := title, description := "", content := "", guid := guid,
    publishedParsed := none, itunesExt := some extW, enclosures := [] }

/-- A feed item without the iTunes extension block. -/
def itemNoExt (title guid : String) : Item :=
  { title := title, description := "", content := "", guid := guid,
    publishedParsed := none, itunesExt := none, enclosures := [] }

/-- A minimal stored podcast. -/
def podW : Podcast :=
  { id := "p1", title := "My Show", categories := [], link := "",
    description := "", subtitle := "", owner := { name := "", email := "" },
    author := "", image := "", feed := "http://a.example/feed.xml",
    podlistUrl := "my-show", updated := 0 }

/-- A feed whose two items share one GUID. -/
def feedDupGuid : Feed :=
  { title := "My Show", description := "", link := "",
    feedLink := "http://a.example/feed.xml", categories := [],
    publishedParsed := none, itunesExt := none,
    items := [itemW "One" "g", itemW "Two" "g"] }

/-- A small feed with one iTunes-compatible item. -/
def feedW : Feed :=
  { title := "My Show", description := "d", link := "l",
    feedLink := "http://a.example/feed.xml", categories := [],
    publishedParsed := none, itunesExt := none,
    items := [itemW "One" "g1"] }

/-- A feed parsed without a self-referential link. -/
def feedNoLink : Feed :=
  { title := "My Show", description := "", link := "", feedLink := "",
    categories := [], publishedParsed := none, itunesExt := none, items := [] }

/-- Empty reconciliation state. -/
def stEmpty : ReconcilerState :=
  { existingPodcastFeeds := [], podcastTitles := [], podcastStore := [],
    episodeStore := [] }

/-- Reconciliation state already holding `podW`. -/
def stW : ReconcilerState :=
  { existingPodcastFeeds := ["http://a.example/feed.xml"],
    podcastTitles := ["my-show"], podcastStore := [podW], episodeStore := [] }

/-! ## Claim C5 -/

/-- Unfolding equation of the item loop on a non-empty item list. -/
theorem newEpisodesList_cons (now : Nat) (podcast : Podcast) (existing : List String)
    (e : Item) (rest : List Item) :
    newEpisodesList now podcast existing (e :: rest) =
      if e.itunesExt.isSome then
        if e.guid ∈ existing then newEpisodesList now podcast existing rest
        else createEpisode now e podcast :: newEpisodesList now podcast existing rest
      else newEpisodesList now podcast existing rest := rfl

/-- The GUIDs of the new-episode batch form a sublist of the feed items'
GUIDs: each item is either skipped or contributes exactly its own GUID. -/
theorem newEpisodes_guids_sublist (now : Nat) (podcast : Podcast) (existing : List String) :
    ∀ items : List Item,
      ((newEpisodesList now podcast existing items).map Episode.guid).Sublist
        (items.map Item.guid) := by
  intro items
  induction items with
  | nil => exact List.Sublist.refl _
  | cons e rest ih =>
    rw [newEpisodesList_cons, List.map_cons]
    by_cases he : e.itunesExt.isSome = true
    · rw [if_pos he]
      by_cases hg : e.guid ∈ existing
      · rw [if_pos hg]
        exact List.Sublist.cons _ ih
      · rw [if_neg hg, List.map_cons]
        have hgeq : (createEpisode now e podcast).guid = e.guid := rfl
        rw [hgeq]
        exact List.Sublist.cons₂ _ ih
    · rw [if_neg he]
      exact List.Sublist.cons _ ih

/-- No episode of the new batch carries a GUID from the loaded set. -/
theorem newEpisodes_guid_not_existing (now : Nat) (podcast : Podcast)
    (existing : List String) : ∀ (items : List Item) (ep : Episode),
    ep ∈ newEpisodesList now podcast existing items → ep.guid ∉ existing := by
  intro items
  induction items with
  | nil =>
    intro ep hep
    cases hep
  | cons e rest ih =>
    intro ep hep
    rw [newEpisodesList_cons] at hep
    by_cases he : e.itunesExt.isSome = true
    · rw [if_pos he] at hep
      by_cases hg : e.guid ∈ existing
      · rw [if_pos hg] at hep
        exact ih ep hep
      · rw [if_neg hg] at hep
        rcases List.mem_cons.mp hep with rfl | hep2
        · exact hg
        · exact ih ep hep2
    · rw [if_neg he] at hep
      exact ih ep hep

/-- C5 counterexample: a reconciliation run can insert two episodes with
the same GUID for the same podcast.  `feedDupGuid` carries two
iTunes-compatible items that share GUID `"g"`; against an empty episode
store, `processEpisodes` succeeds and its inserted batch carries GUID list
`["g", "g"]` — the loop never adds fresh GUIDs to the loaded set, so
intra-feed duplicates are not caught. -/
theorem c5_counterexample :
    (processEpisodes allOk 0 feedDupGuid podW []).toOption.map
        (fun r => r.1.map Episode.guid) = some ["g", "g"] ∧
    ¬ (["g", "g"] : List String).Nodup :=
  ⟨by decide, by decide⟩

/-- C5 (amended): every feed item whose GUID is in the loaded set of
existing episode GUIDs is skipped (no inserted episode carries such a
GUID), and the inserted batch has pairwise-distinct GUIDs **provided** the
feed's items carry pairwise-distinct GUIDs; two items sharing a GUID inside
one fetched feed are, however, both inserted. -/
theorem c5_no_duplicate_guids (now : Nat) (podcast : Podcast) (existing : List String)
    (items : List Item) (h : (items.map Item.guid).Nodup) :
    ((newEpisodesList now podcast existing items).map Episode.guid).Nodup ∧
    ∀ ep ∈ newEpisodesList now podcast existing items, ep.guid ∉ existing :=
  ⟨List.Nodup.sublist (newEpisodes_guids_sublist now podcast existing items) h,
    fun ep hep => newEpisodes_guid_not_existing now podcast existing items ep hep⟩

/-- Witness for `c5_no_duplicate_guids` on a two-item feed with distinct
GUIDs against a loaded set `["g0"]`. -/
theorem c5_no_duplicate_guids_witness :
    (([itemW "One" "g1", itemW "Two" "g2"].map Item.guid).Nodup) ∧
    (((newEpisodesList 0 podW ["g0"] [itemW "One" "g1", itemW "Two" "g2"]).map
        Episode.guid).Nodup ∧
      ∀ ep ∈ newEpisodesList 0 podW ["g0"] [itemW "One" "g1", itemW "Two" "g2"],
        ep.guid ∉ ["g0"]) :=
  ⟨by decide,
    c5_no_duplicate_guids 0 podW ["g0"] [itemW "One" "g1", itemW "Two" "g2"] (by decide)⟩

/-! ## Claim C6 -/

/-- C6: feed items lacking the iTunes extension block are never persisted:
every episode of the inserted batch stems from an item carrying the block;
removing the non-iTunes items from a feed changes the batch not at all
(skipping is a silent filter); and with a healthy store `processEpisodes`
returns success regardless of how many items were skipped. -/
theorem c6_itunes_filter :
    (∀ (now : Nat) (podcast : Podcast) (existing : List String) (items : List Item)
      (ep : Episode), ep ∈ newEpisodesList now podcast existing items →
        ∃ e, e ∈ items ∧ e.itunesExt.isSome = true ∧ ep = createEpisode now e podcast) ∧
    (∀ (now : Nat) (podcast : Podcast) (existing : List String) (items : List Item),
      newEpisodesList now podcast existing (items.filter (fun e => e.itunesExt.isSome)) =
        newEpisodesList now podcast existing items) ∧
    (∀ (now : Nat) (feed : Feed) (podcast : Podcast) (store : List Episode),
      (processEpisodes allOk now feed podcast store).isOk = true) := by
  refine ⟨?_, ?_, ?_⟩
  · intro now podcast existing items
    induction items with
    | nil =>
      intro ep hep
      cases hep
    | cons e rest ih =>
      intro ep hep
      rw [newEpisodesList_cons] at hep
      by_cases he : e.itunesExt.isSome = true
      · rw [if_pos he] at hep
        by_cases hg : e.guid ∈ existing
        · rw [if_pos hg] at hep
          obtain ⟨f, hf, hfi, hfe⟩ := ih ep hep
          exact ⟨f, List.mem_cons_of_mem _ hf, hfi, hfe⟩
        · rw [if_neg hg] at hep
          rcases List.mem_cons.mp hep with rfl | hep2
          · exact ⟨e, List.mem_cons_self _ _, he, rfl⟩
          · obtain ⟨f, hf, hfi, hfe⟩ := ih ep hep2
            exact ⟨f, List.mem_cons_of_mem _ hf, hfi, hfe⟩
      · rw [if_neg he] at hep
        obtain ⟨f, hf, hfi, hfe⟩ := ih ep hep
        exact ⟨f, List.mem_cons_of_mem _ hf, hfi, hfe⟩
  · intro now podcast existing items
    induction items with
    | nil => rfl
    | cons e rest ih =>
      by_cases he : e.itunesExt.isSome = true
      · have hfilter : (e :: rest).filter (fun x => x.itunesExt.isSome) =
            e :: rest.filter (fun x => x.itunesExt.isSome) := by
          rw [List.filter_cons]
          simp [he]
        rw [hfilter, newEpisodesList_cons, newEpisodesList_cons, if_pos he, if_pos he]
        by_cases hg : e.guid ∈ existing
        · rw [if_pos hg, if_pos hg]
          exact ih
        · rw [if_neg hg, if_neg hg, ih]
      · have hfilter : (e :: rest).filter (fun x => x.itunesExt.isSome) =
            rest.filter (fun x => x.itunesExt.isSome) := by
          rw [List.filter_cons]
          simp [he]
        rw [hfilter, newEpisodesList_cons, if_neg he]
        exact ih
  · intro now feed podcast store
    have hred : processEpisodes allOk now feed podcast store =
        (if 0 < (newEpisodesList now podcast (existingGuidsFor podcast store)
            feed.items).length
         then Except.ok (newEpisodesList now podcast (existingGuidsFor podcast store)
            feed.items,
            store ++ newEpisodesList now podcast (existingGuidsFor podcast store) feed.items)
         else Except.ok (newEpisodesList now podcast (existingGuidsFor podcast store)
            feed.items, store)) := rfl
    rw [hred]
    by_cases hlen : 0 < (newEpisodesList now podcast (existingGuidsFor podcast store)
        feed.items).length
    · rw [if_pos hlen]
      rfl
    · rw [if_neg hlen]
      rfl

/-- Witness for the first conjunct of `c6_itunes_filter` at a concrete
item and feed. -/
theorem c6_itunes_filter_witness :
    (createEpisode 0 (itemW "One" "g1") podW ∈
      newEpisodesList 0 podW [] [itemNoExt "Zero" "g0", itemW "One" "g1"]) ∧
    (∃ e, e ∈ [itemNoExt "Zero" "g0", itemW "One" "g1"] ∧ e.itunesExt.isSome = true ∧
      createEpisode 0 (itemW "One" "g1") podW = createEpisode 0 e podW) :=
  ⟨by decide,
    c6_itunes_filter.1 0 podW [] [itemNoExt "Zero" "g0", itemW "One" "g1"] _ (by decide)⟩

/-! ## Claim C7 -/

/-- C7: on the update path, the podcast update document writes only
categories, link, description, subtitle, author, image and the updated
timestamp — the title, the slug (`PodlistUrl`), the feed URL (and the
owner and store id) of the stored podcast are never modified; and the
update path of `processFeed` changes the podcast store only by applying
`updatePodcast` to the stored document (or leaves it unchanged on a read
failure). -/
theorem c7_update_immutable_fields :
    (∀ (now : Nat) (podcast : Podcast) (feed : Feed),
      (updatePodcast now podcast feed).title = podcast.title ∧
      (updatePodcast now podcast feed).podlistUrl = podcast.podlistUrl ∧
      (updatePodcast now podcast feed).feed = podcast.feed ∧
      (updatePodcast now podcast feed).owner = podcast.owner ∧
      (updatePodcast now podcast feed).id = podcast.id) ∧
    (∀ (flags : DbFlags) (now : Nat) (feed : Feed) (st : ReconcilerState),
      feed.feedLink ∈ st.existingPodcastFeeds →
      (processFeed flags now feed st).2.podcastStore = st.podcastStore ∨
      ∃ pod : Podcast, (processFeed flags now feed st).2.podcastStore =
        st.podcastStore.map (fun p => if p.id = pod.id then updatePodcast now p feed else p)) := by
  constructor
  · intro now podcast feed
    unfold updatePodcast
    cases feed.itunesExt <;> simp
  · intro flags now feed st hmem
    unfold processFeed
    rw [if_pos hmem]
    cases hfp : flags.findPodcastOk <;>
      cases hfind : st.podcastStore.find? (fun p => decide (p.feed = feed.feedLink))
    · left
      rfl
    · left
      rfl
    · left
      rfl
    · rename_i pod
      right
      refine ⟨pod, ?_⟩
      cases hpe : processEpisodes flags now feed pod st.episodeStore
      · simp only [hpe]
        try rfl
      · simp only [hpe]
        try rfl

/-- Witness for `c7_update_immutable_fields` on the stored state `stW`
whose index already holds `feedW`'s link. -/
theorem c7_update_immutable_witness :
    (feedW.feedLink ∈ stW.existingPodcastFeeds) ∧
    ((processFeed allOk 0 feedW stW).2.podcastStore = stW.podcastStore ∨
      ∃ pod : Podcast, (processFeed allOk 0 feedW stW).2.podcastStore =
        stW.podcastStore.map (fun p => if p.id = pod.id then updatePodcast 0 p feedW else p)) :=
  ⟨by decide, c7_update_immutable_fields.2 allOk 0 feedW stW (by decide)⟩

/-! ## Claim C8 -/

/-- C8 counterexample: two iTunes-compatible items with the same title but
different GUIDs, reconciled in one run for one podcast, receive the same
slug `"ep"` — the used-slug set passed to `GetTitleUrl` is a fresh empty
set for every episode, so episode slugs do not deduplicate within a
podcast. -/
theorem c8_counterexample :
    ((newEpisodesList 0 podW [] [itemW "Ep" "g1", itemW "Ep" "g2"]).map
      Episode.podlistUrl = ["ep", "ep"]) ∧
    ¬ ((newEpisodesList 0 podW [] [itemW "Ep" "g1", itemW "Ep" "g2"]).map
      Episode.podlistUrl).Nodup :=
  ⟨by decide, by decide⟩

/-- C8 (amended): each new episode's slug is computed by `GetTitleUrl`
against a freshly made **empty** used-slug set — no per-podcast
accumulation happens — so it always equals `TitleUrl` of the episode title,
and episodes with equal titles in one podcast share a slug. -/
theorem c8_episode_slug_no_accumulation :
    (∀ (now : Nat) (e : Item) (podcast : Podcast),
      (createEpisode now e podcast).podlistUrl = GetTitleUrl e.title []) ∧
    (∀ title : String, GetTitleUrl title [] = TitleUrl title) ∧
    (∀ (now : Nat) (podcast : Podcast) (existing : List String) (items : List Item)
      (ep : Episode), ep ∈ newEpisodesList now podcast existing items →
        ep.podlistUrl = TitleUrl ep.title) := by
  have hbase : ∀ title : String, GetTitleUrl title [] = TitleUrl title := by
    intro title
    simp only [GetTitleUrl, getTitleUrlAux]
    rw [if_neg (List.not_mem_nil _)]
  refine ⟨fun now e podcast => rfl, hbase, ?_⟩
  · intro now podcast existing items
    induction items with
    | nil =>
      intro ep hep
      cases hep
    | cons e rest ih =>
      intro ep hep
      rw [newEpisodesList_cons] at hep
      by_cases he : e.itunesExt.isSome = true
      · rw [if_pos he] at hep
        by_cases hg : e.guid ∈ existing
        · rw [if_pos hg] at hep
          exact ih ep hep
        · rw [if_neg hg] at hep
          rcases List.mem_cons.mp hep with rfl | hep2
          · exact hbase e.title
          · exact ih ep hep2
      · rw [if_neg he] at hep
        exact ih ep hep

/-- Witness for the membership conjunct of
`c8_episode_slug_no_accumulation` at a concrete episode. -/
theorem c8_episode_slug_witness :
    (createEpisode 0 (itemW "Ep" "g1") podW ∈
      newEpisodesList 0 podW [] [itemW "Ep" "g1"]) ∧
    (createEpisode 0 (itemW "Ep" "g1") podW).podlistUrl =
      TitleUrl (createEpisode 0 (itemW "Ep" "g1") podW).title :=
  ⟨by decide,
    c8_episode_slug_no_accumulation.2.2 0 podW [] [itemW "Ep" "g1"] _ (by decide)⟩

/-! ## Claim C9 -/

theorem str_empty_of_length_le_zero {s : String} (h : s.length ≤ 0) : s = "" := by
  apply str_ext
  rw [str_length_eq] at h
  have hz := List.length_eq_zero.mp (Nat.le_zero.mp h)
  rw [hz]

/-- C9: on success with a non-empty input `url`, `LoadFeed` substitutes
`url` for an empty parsed self-link, keeps a non-empty parsed self-link
unchanged, and consequently never returns a feed with an empty
`FeedLink`. -/
theorem c9_loadfeed_selflink (url : String) (f : Feed) (hurl : url ≠ "") :
    (f.feedLink = "" → LoadFeed url (.ok f) = .ok { f with feedLink := url }) ∧
    (f.feedLink ≠ "" → LoadFeed url (.ok f) = .ok f) ∧
    (∀ g, LoadFeed url (.ok f) = .ok g → g.feedLink ≠ "") := by
  refine ⟨?_, ?_, ?_⟩
  · intro he
    show Except.ok (if f.feedLink.length ≤ 0 then { f with feedLink := url } else f) = _
    rw [if_pos (by rw [he]; decide)]
  · intro hne
    show Except.ok (if f.feedLink.length ≤ 0 then { f with feedLink := url } else f) = _
    rw [if_neg (fun hle => hne (str_empty_of_length_le_zero hle))]
  · intro g hg
    have h3 : Except.ok (α := Feed) (ε := String)
        (if f.feedLink.length ≤ 0 then { f with feedLink := url } else f) = Except.ok g := hg
    injection h3 with h4
    by_cases he : f.feedLink.length ≤ 0
    · rw [if_pos he] at h4
      rw [← h4]
      exact hurl
    · rw [if_neg he] at h4
      rw [← h4]
      intro habs
      exact he (by rw [habs]; decide)

/-- Witness for `c9_loadfeed_selflink` on a feed parsed without a
self-link. -/
theorem c9_loadfeed_witness :
    ("http://a.example/feed.xml" : String) ≠ "" ∧
    ((feedNoLink.feedLink = "" →
        LoadFeed "http://a.example/feed.xml" (.ok feedNoLink) =
          .ok { feedNoLink with feedLink := "http://a.example/feed.xml" }) ∧
      (feedNoLink.feedLink ≠ "" →
        LoadFeed "http://a.example/feed.xml" (.ok feedNoLink) = .ok feedNoLink) ∧
      (∀ g, LoadFeed "http://a.example/feed.xml" (.ok feedNoLink) = .ok g →
        g.feedLink ≠ "")) :=
  ⟨by decide, c9_loadfeed_selflink "http://a.example/feed.xml" feedNoLink (by decide)⟩

/-! ## Claim C10 -/

/-- C10: on the create path (feed link not in the index), a failed podcast
insert makes `processFeed` return the insert error with the whole
reconciliation state — in particular both dedup indices — unchanged, while
a successful insert adds exactly the feed link to the feed index and
exactly the computed slug to the slug index (whatever episode processing
does afterwards). -/
theorem c10_create_path_indices (flags : DbFlags) (now : Nat) (feed : Feed)
    (st : ReconcilerState) (h : feed.feedLink ∉ st.existingPodcastFeeds) :
    (flags.insertPodcastOk = false →
      (processFeed flags now feed st).1 = .error "error inserting podcast" ∧
      (processFeed flags now feed st).2 = st) ∧
    (flags.insertPodcastOk = true →
      (processFeed flags now feed st).2.existingPodcastFeeds =
        feed.feedLink :: st.existingPodcastFeeds ∧
      (processFeed flags now feed st).2.podcastTitles =
        GetTitleUrl feed.title st.podcastTitles :: st.podcastTitles) := by
  constructor
  · intro hf
    unfold processFeed
    rw [if_neg h, hf, if_neg (by simp)]
    exact ⟨rfl, rfl⟩
  · intro ht
    unfold processFeed
    rw [if_neg h, ht, if_pos (by rfl)]
    cases hpe : processEpisodes flags now feed
        (createNewPodcast now feed (GetTitleUrl feed.title st.podcastTitles))
        st.episodeStore
    · exact ⟨rfl, rfl⟩
    · exact ⟨rfl, rfl⟩

/-- Witness for `c10_create_path_indices` on the empty state. -/
theorem c10_create_path_witness :
    (feedW.feedLink ∉ stEmpty.existingPodcastFeeds) ∧
    ((allOk.insertPodcastOk = false →
        (processFeed allOk 0 feedW stEmpty).1 = .error "error inserting podcast" ∧
        (processFeed allOk 0 feedW stEmpty).2 = stEmpty) ∧
      (allOk.insertPodcastOk = true →
        (processFeed allOk 0 feedW stEmpty).2.existingPodcastFeeds =
          feedW.feedLink :: stEmpty.existingPodcastFeeds ∧
        (processFeed allOk 0 feedW stEmpty).2.podcastTitles =
          GetTitleUrl feedW.title stEmpty.podcastTitles :: stEmpty.podcastTitles)) :=
  ⟨by decide, c10_create_path_indices allOk 0 feedW stEmpty (by decide)⟩

end PodGo
